import Mathlib

/-!
Verification of the build-progress tracking and statistics engine of `molnctl`
(`src/commands/build.rs`): the event model (`BuildEvent`, `BuildStats`), the
stats aggregator (`handle_buildkit_event` / `parse_buildkit_status_response_direct`),
the diagnostic reporter (`print_full_build_log_on_error`), and the summary
formatter (`get_build_summary`, `format_bytes`, `format_duration`).

Modelling conventions:
* Rust `String` / `&str` is Lean `String`; all string primitives used by the
  code (`trim`, `starts_with`, `contains`, `find`, slicing, `cmp`) are modelled
  here as character-list functions so that they compute in the kernel.  Rust
  indexes and slices by bytes while this model indexes by characters; the two
  agree on ASCII data, and every concrete input appearing in a theorem below is
  ASCII.  A Rust slice `&s[a..b]` panics when the range is out of bounds; the
  model returns `Option`, with `none` standing for the panic.
* Rust `u32`/`u64` counters are `Nat`.  The only subtraction the code performs
  (`cache_hits -= 1` / `cache_misses -= 1`) is proved to never underflow on the
  reachable states, so `Nat` subtraction agrees with `u32` arithmetic there.
* `HashMap` is an association list with in-place replacement on insert
  (`mapInsert`), which preserves all lookup-observable behaviour.
* `f64` appears only in display formatting.  `Duration::as_secs_f64`,
  `{:.1}` and the byte-size loop are modelled over exact integers: a duration
  is its whole number of milliseconds, division of an integer by 1024 is exact
  in `f64`, and `{:.1}` rounds half to even (`rheDiv`).
-/

/-- Does `p` occur as a contiguous sublist of the second argument?  Models Rust
`str::contains` (byte search and character search coincide on whole-pattern
matches in valid UTF-8). -/
def hasSubList (p : List Char) : List Char → Bool
  | [] => p.isEmpty
  | c :: t => p.isPrefixOf (c :: t) || hasSubList p t

/-- Rust `str::contains`. -/
def strContains (s pat : String) : Bool :=
  hasSubList pat.data s.data

/-- Rust `str::starts_with`. -/
def strStarts (s pat : String) : Bool :=
  pat.data.isPrefixOf s.data

/-- Whitespace test used by `trim`.  Rust trims the Unicode `White_Space`
class; the inputs this development evaluates only ever carry the ASCII
whitespace recognised here. -/
def isWS (c : Char) : Bool := c.isWhitespace

/-- Rust `str::trim` on character lists. -/
def trimChars (l : List Char) : List Char :=
  ((l.dropWhile isWS).reverse.dropWhile isWS).reverse

/-- Rust `str::trim`. -/
def strTrim (s : String) : String :=
  ⟨trimChars s.data⟩

/-- Fuel-driven loop of `trim_start_matches`: each successful strip removes at
least one character, so fuel `l.length` never runs out. -/
def stripAllPrefixGo (p : List Char) : Nat → List Char → List Char
  | 0, l => l
  | fuel + 1, l =>
    if p ≠ [] ∧ p.isPrefixOf l then stripAllPrefixGo p fuel (l.drop p.length) else l

/-- Rust `str::trim_start_matches(pat)`: repeatedly strip the pattern from the
front. -/
def stripAllPrefix (p : List Char) (l : List Char) : List Char :=
  stripAllPrefixGo p l.length l

/-- Rust `str::strip_prefix`: `some` of the rest when `pat` is a prefix. -/
def stripPrefixOnce (s pat : String) : Option String :=
  if pat.data.isPrefixOf s.data then some ⟨s.data.drop pat.data.length⟩ else none

/-- Rust `str::cmp`: lexicographic comparison.  Rust compares UTF-8 bytes;
byte order and code-point order coincide for UTF-8, so character-wise
comparison is faithful. -/
def cmpChars : List Char → List Char → Ordering
  | [], [] => .eq
  | [], _ :: _ => .lt
  | _ :: _, [] => .gt
  | a :: as, b :: bs => if a < b then .lt else if b < a then .gt else cmpChars as bs

/-- Rust `str::parse::<u32>()`: optional leading `+`, at least one digit, no
other characters, value below `2^32`. -/
def parseU32 (s : String) : Option Nat :=
  let cs := match s.data with
    | '+' :: rest => rest
    | cs => cs
  if cs ≠ [] ∧ cs.all (·.isDigit) then
    let v := cs.foldl (fun a c => a * 10 + (c.toNat - 48)) 0
    if v < 4294967296 then some v else none
  else none

/-- Rust slice `&s[a..b]` (character-indexed; `none` = panic). -/
def sliceSeg (l : List Char) (a b : Nat) : Option (List Char) :=
  if a ≤ b ∧ b ≤ l.length then some ((l.drop a).take (b - a)) else none

/-- Rust slice `&s[..n]` (`none` = panic). -/
def sliceUpTo (s : String) (n : Nat) : Option String :=
  (sliceSeg s.data 0 n).map (⟨·⟩)

/-- Rust slice `&s[n..]` (`none` = panic). -/
def sliceFrom (s : String) (n : Nat) : Option String :=
  if n ≤ s.data.length then some ⟨s.data.drop n⟩ else none

/-- Round `n / d` to the nearest integer, half to even: the rounding Rust's
`{:.1}` formatting applies to the final decimal digit. -/
def rheDiv (n d : Nat) : Nat :=
  let q := n / d
  let r := n % d
  if 2 * r < d then q else if d < 2 * r then q + 1 else if q % 2 = 0 then q else q + 1

/-- Render a tenths count as Rust `{:.1}` renders `tenths / 10`. -/
def fmtOneDec (tenths : Nat) : String :=
  toString (tenths / 10) ++ "." ++ toString (tenths % 10)

/-- Rust `{:.1}` applied to `hits / total * 100` (exact-rational model of the
`f64` computation; deviations are possible only on ties at half an ulp). -/
def fmtPct (hits total : Nat) : String :=
  fmtOneDec (rheDiv (hits * 1000) total)

/-- Rust `{:3}` padding for the transcript line numbers. -/
def pad3 (n : Nat) : String :=
  if n < 10 then "  " ++ toString n
  else if n < 100 then " " ++ toString n
  else toString n

/-- `struct StepInfo` from `build.rs`. -/
structure StepInfo where
  current : Nat
  total : Nat
  instruction : String
deriving Repr, DecidableEq

/-- `struct BlobInfo` from `build.rs`. -/
structure BlobInfo where
  id : String
  size : Nat
deriving Repr, DecidableEq

/-- `struct BuildEvent` from `build.rs`: one deduplicated build step. -/
structure BuildEvent where
  name : String
  step_number : Option Nat
  started : Bool
  completed : Bool
  cached : Bool
  logs : List String
deriving Repr, DecidableEq

/-- `struct BuildStats` from `build.rs`.  `build_start_time : Bool` records
whether the `Option<Instant>` is set; the wall-clock value itself lives outside
the model (elapsed times enter the formatting functions as explicit millisecond
arguments). -/
structure BuildStats where
  total_steps : Nat
  current_step : Nat
  cache_hits : Nat
  cache_misses : Nat
  layers_processed : Nat
  total_image_size : Nat
  layers_downloaded : Nat
  build_start_time : Bool
  vertex_states : List (String × Bool)
  base_image_layers : Nat
  build_log : List String
  build_events : List (String × BuildEvent)
deriving Repr, DecidableEq

/-- `BuildStats::default()`. -/
def emptyBuildStats : BuildStats :=
  { total_steps := 0, current_step := 0, cache_hits := 0, cache_misses := 0
    layers_processed := 0, total_image_size := 0, layers_downloaded := 0
    build_start_time := false, vertex_states := [], base_image_layers := 0
    build_log := [], build_events := [] }

/-- One BuildKit vertex report (`status_response.vertexes[i]`): `started` and
`completed` are the `is_some` views of the protocol's timestamps. -/
structure Vertex where
  digest : String
  name : String
  started : Bool
  completed : Bool
  cached : Bool
deriving Repr, DecidableEq

/-- One BuildKit log item (`status_response.logs[i]`), with `msg` already
decoded from bytes (`String::from_utf8_lossy`). -/
structure LogItem where
  vertex : String
  msg : String
deriving Repr, DecidableEq

/-- The parts of a BuildKit `StatusResponse` the aggregator reads. -/
structure StatusResp where
  vertexes : List Vertex
  logs : List LogItem
deriving Repr, DecidableEq

/-- `HashMap` lookup on the association-list model. -/
def alookup (k : String) : List (String × α) → Option α
  | [] => none
  | (k', v) :: t => if k' = k then some v else alookup k t

/-- `HashMap::insert` on the association-list model: replace the entry if the
key is present, append otherwise. -/
def mapInsert (m : List (String × α)) (k : String) (v : α) : List (String × α) :=
  match m with
  | [] => [(k, v)]
  | (k', v') :: t => if k' = k then (k, v) :: t else (k', v') :: mapInsert t k v

/-- The key list of an association-list map. -/
def mkeys (m : List (String × α)) : List String :=
  m.map Prod.fst

/-- Index of the first occurrence of `pat` as a sublist.  Models Rust
`str::find(pat)` (byte index; equals the character index on ASCII data). -/
def findSubIdx (pat : List Char) : List Char → Option Nat
  | [] => if pat.isEmpty then some 0 else none
  | c :: t => if pat.isPrefixOf (c :: t) then some 0 else (findSubIdx pat t).map (· + 1)

/-- Rust `str::find` for a string pattern. -/
def strFind (s pat : String) : Option Nat :=
  findSubIdx pat.data s.data

/-- `parse_step_info` from `build.rs`.  The outer `Option` is the success of
the computation (`none` = the `&step_line[5..colon_pos]` slice panics, which
happens when the first `:` sits before index 5); the inner `Option` is the
function's own return value. -/
def parse_step_info (step_line : String) : Option (Option StepInfo) :=
  match step_line.data.findIdx? (· = ':') with
  | none => some none
  | some colonPos =>
    match sliceSeg step_line.data 5 colonPos with
    | none => none
    | some stepPart =>
      let instruction : String := strTrim ⟨step_line.data.drop (colonPos + 1)⟩
      match stepPart.findIdx? (· = '/') with
      | none => some none
      | some slashPos =>
        match parseU32 (strTrim ⟨stepPart.take slashPos⟩),
              parseU32 (strTrim ⟨stepPart.drop (slashPos + 1)⟩) with
        | some c, some t => some (some ⟨c, t, instruction⟩)
        | _, _ => some none

/-- `extract_image_name` from `build.rs`. -/
def extract_image_name (pull_line : String) : Option String :=
  match strFind pull_line "pull " with
  | some start =>
    let rest := pull_line.data.drop (start + 5)
    match findSubIdx "...".data rest with
    | some e => some ⟨rest.take e⟩
    | none => some ⟨rest⟩
  | none => none

/-- `extract_tag_name` from `build.rs`. -/
def extract_tag_name (tagged_line : String) : Option String :=
  match strFind tagged_line "tagged " with
  | some start => some ⟨tagged_line.data.drop (start + 7)⟩
  | none => none

/-- `extract_blob_info` from `build.rs` (the size is always reported as 0). -/
def extract_blob_info (blob_line : String) : Option BlobInfo :=
  match strFind blob_line "sha256:" with
  | some start =>
    let hashPart := blob_line.data.drop start
    let hashEnd := (hashPart.findIdx? (· = ' ')).getD hashPart.length
    some ⟨⟨hashPart.take hashEnd⟩, 0⟩
  | none => none

/-- `update_step_stats` from `build.rs`: record current/total and set the
start instant if unset (presence-wise the field is `true` afterwards either
way). -/
def update_step_stats (s : BuildStats) (si : StepInfo) : BuildStats :=
  { s with total_steps := si.total, current_step := si.current, build_start_time := true }

/-- `update_cache_stats` from `build.rs` (the layer id argument is unused by
the source as well). -/
def update_cache_stats (s : BuildStats) (is_cache_hit : Bool) : BuildStats :=
  let s1 := { s with layers_processed := s.layers_processed + 1 }
  if is_cache_hit then { s1 with cache_hits := s1.cache_hits + 1 }
  else { s1 with cache_misses := s1.cache_misses + 1 }

/-- `update_download_stats` from `build.rs`. -/
def update_download_stats (s : BuildStats) (b : BlobInfo) : BuildStats :=
  { s with layers_downloaded := s.layers_downloaded + 1,
           total_image_size := s.total_image_size + b.size }

/-- `format_bytes` from `build.rs`.  The source loops `size /= 1024.0` while
`size >= 1024.0 && unit_index < 4`; dividing by 1024 is exact in `f64`, so
after the loop `unit_index` is the largest `k ≤ 4` with `bytes ≥ 1024^k` and
`size = bytes / 1024^k` exactly, and `{:.1}` rounds that value half to even to
one decimal (`rheDiv (bytes * 10) (1024^k)` tenths). -/
def format_bytes (bytes : Nat) : String :=
  if bytes < 1024 then toString bytes ++ " B"
  else if bytes < 1024 ^ 2 then fmtOneDec (rheDiv (bytes * 10) 1024) ++ " KB"
  else if bytes < 1024 ^ 3 then fmtOneDec (rheDiv (bytes * 10) (1024 ^ 2)) ++ " MB"
  else if bytes < 1024 ^ 4 then fmtOneDec (rheDiv (bytes * 10) (1024 ^ 3)) ++ " GB"
  else fmtOneDec (rheDiv (bytes * 10) (1024 ^ 4)) ++ " TB"

/-- `format_duration` from `build.rs`, on a duration given as whole
milliseconds: `secs >= 60.0` / `secs >= 1.0` on `as_secs_f64` coincide with the
millisecond comparisons, `as_millis` is the raw count, and `{:.1}` of
`secs` / `secs / 60.0` yields the half-to-even tenths. -/
def format_duration (ms : Nat) : String :=
  if 60000 ≤ ms then fmtOneDec (rheDiv ms 6000) ++ "m"
  else if 1000 ≤ ms then fmtOneDec (rheDiv ms 100) ++ "s"
  else toString ms ++ "ms"

/-- The `timing_info` field of `get_build_summary` in `build.rs`: the elapsed
time since `build_start_time`, always rendered as `{:.1}s`. -/
def summary_timing (has_start : Bool) (elapsed_ms : Nat) : String :=
  if has_start then "â±ï¸  " ++ fmtOneDec (rheDiv elapsed_ms 100) ++ "s total build time"
  else "â±ï¸  Build complete"

/-- `handle_build_output` from `build.rs`, stats effect: the raw line is
appended to `build_log` (the display side prints it or feeds the progress
heuristics and mutates nothing). -/
def handle_build_output (s : BuildStats) (output : String) : BuildStats :=
  { s with build_log := s.build_log ++ [output] }

/-- The verbose-mode aux-event arm of the stream loop in `execute_build`:
`logger.handle_build_output(&format!("BuildKit event: {:?}", buildkit_event))`.
`dbg` is the `{:?}` rendering of the event. -/
def verbose_aux_step (s : BuildStats) (dbg : String) : BuildStats :=
  handle_build_output s ("BuildKit event: " ++ dbg)

/-- The step-number extraction of `handle_buildkit_event` in `build.rs`:
`name.split(']').next()`, `trim_start_matches('[')`, `split('/').next()`,
`parse::<u32>().ok()`, guarded by `name.starts_with("[")`. -/
def vertex_step_number (name : String) : Option Nat :=
  if strStarts name "[" then
    parseU32 ⟨((name.data.takeWhile (· ≠ ']')).dropWhile (· = '[')).takeWhile (· ≠ '/')⟩
  else none

/-- The per-vertex `build_events` update of `handle_buildkit_event` in
`build.rs`: look up or create the event for the digest, then make `started` /
`completed` monotone, setting `cached` on the report that first marks the
event completed. -/
def update_build_event (s : BuildStats) (v : Vertex) : BuildStats :=
  let e0 := match alookup v.digest s.build_events with
    | some e => e
    | none =>
      { name := v.name, step_number := vertex_step_number v.name,
        started := false, completed := false, cached := false, logs := [] }
  let e1 := if v.started && !e0.started then { e0 with started := true } else e0
  let e2 := if v.completed && !e1.completed then { e1 with completed := true, cached := v.cached } else e1
  { s with build_events := mapInsert s.build_events v.digest e2 }

/-- The per-log `build_events` update of `handle_buildkit_event` in
`build.rs`: trim the decoded message and append it to the matching event's
logs when non-empty and not already present. -/
def apply_vertex_log (s : BuildStats) (l : LogItem) : BuildStats :=
  let logText := strTrim l.msg
  if logText ≠ "" then
    match alookup l.vertex s.build_events with
    | some e =>
      if logText ∈ e.logs then s
      else { s with build_events := mapInsert s.build_events l.vertex { e with logs := e.logs ++ [logText] } }
    | none => s
  else s

/-- The completed-vertex bookkeeping of
`parse_buildkit_status_response_direct` in `build.rs` (lines 539-573): record
the digest's cached state and reconcile the counters. -/
def apply_completion (s : BuildStats) (digest : String) (cached : Bool) : BuildStats :=
  let wasTracked := (alookup digest s.vertex_states).isSome
  let prevCached := (alookup digest s.vertex_states).getD false
  let s1 := { s with vertex_states := mapInsert s.vertex_states digest cached }
  if !wasTracked then
    let s2 := if cached then { s1 with cache_hits := s1.cache_hits + 1 }
              else { s1 with cache_misses := s1.cache_misses + 1 }
    { s2 with layers_processed := s2.layers_processed + 1 }
  else if prevCached != cached then
    if cached && !prevCached then
      { s1 with cache_hits := s1.cache_hits + 1, cache_misses := s1.cache_misses - 1 }
    else if !cached && prevCached then
      { s1 with cache_hits := s1.cache_hits - 1, cache_misses := s1.cache_misses + 1 }
    else s1
  else s1

/-- The step-number parse of `handle_dockerfile_step` in `build.rs`:
`name.find(']')`, `&name[1..bracket_end]`, split on `/`,
`parse().unwrap_or(0)` for both halves. -/
def dockerfile_step_nums (name : String) : Option (Nat × Nat) :=
  match name.data.findIdx? (· = ']') with
  | none => none
  | some be =>
    let stepPart := (name.data.drop 1).take (be - 1)
    match stepPart.findIdx? (· = '/') with
    | none => none
    | some sp =>
      some ((parseU32 ⟨stepPart.take sp⟩).getD 0, (parseU32 ⟨stepPart.drop (sp + 1)⟩).getD 0)

/-- Stats effect of `handle_dockerfile_step` in `build.rs`: set
`current_step` / `total_steps` when the bracketed `current/total` pattern
parses.  (The function also renders a progress message; display output mutates
no statistics and is not modelled here.) -/
def handle_dockerfile_step_stats (s : BuildStats) (name : String) : BuildStats :=
  match dockerfile_step_nums name with
  | some (c, t) => { s with current_step := c, total_steps := t }
  | none => s

/-- Stats effect of one vertex in `parse_buildkit_status_response_direct`:
the completion bookkeeping, then the dockerfile-step branch for bracketed
names. -/
def process_vertex_direct (s : BuildStats) (v : Vertex) : BuildStats :=
  let s1 := if v.completed then apply_completion s v.digest v.cached else s
  if strStarts v.name "[" && strContains v.name "]" then handle_dockerfile_step_stats s1 v.name
  else s1

/-- Stats effect of `handle_buildkit_event` on a `BuildInfoAux::BuildKit`
status response: the dedup `build_events` pass over the vertexes, the log
association pass, then `parse_buildkit_status_response_direct` over the
vertexes.  (The `statuses` loop and the trailing log loop only touch the
progress bar.) -/
def handle_status_response (s : BuildStats) (r : StatusResp) : BuildStats :=
  let s1 := r.vertexes.foldl update_build_event s
  let s2 := r.logs.foldl apply_vertex_log s1
  r.vertexes.foldl process_vertex_direct s2

/-- Stats effect of `handle_buildkit_event` on a `BuildInfoAux::Default`
image-id event: push `IMAGE_ID: {first 16 chars}` onto `build_log`. -/
def handle_aux_default_log (s : BuildStats) (id : String) : BuildStats :=
  { s with build_log := s.build_log ++ ["IMAGE_ID: " ++ (⟨id.data.take (min 16 id.data.length)⟩ : String)] }

/-- Display message of the `BuildInfoAux::Default` arm of
`handle_buildkit_event`: `format!("ğŸ¯ Final image: {}", &id[7..15])`; the
unguarded slice panics (`none`) when the id is shorter than 15. -/
def handle_aux_default_msg (id : String) : Option String :=
  (sliceSeg id.data 7 15).map (fun l => "ğŸ¯ Final image: " ++ (⟨l⟩ : String))

/-- `parse_and_display_build_output` from `build.rs`: the textual
progress-heuristics dispatcher.  Result `none` is a panic (an unguarded
`&s[..8]` slice on a short fragment); `some (s', m)` is the updated stats and
the progress-bar message (`none` when no message is set). -/
def parse_and_display_build_output (s : BuildStats) (output : String) :
    Option (BuildStats × Option String) :=
  let t := strTrim output
  if strStarts t "STEP" then
    match parse_step_info t with
    | none => none
    | some none => some (s, none)
    | some (some si) =>
      let s1 := update_step_stats s si
      let ratio := if 0 < s1.cache_hits + s1.cache_misses then
          " â€¢ Cache: " ++ fmtPct s1.cache_hits (s1.cache_hits + s1.cache_misses) ++ "%"
        else ""
      some (s1, some ("ğŸ—ï¸  Step " ++ toString si.current ++ "/" ++ toString si.total ++ ": "
        ++ si.instruction ++ ratio))
  else if strStarts t "Trying to pull" then
    match extract_image_name t with
    | some image =>
      some (s, some ("ğŸ“¦ Pulling " ++ image ++ " â€¢ Layer " ++ toString (s.layers_processed + 1)))
    | none => some (s, none)
  else if strStarts t "Getting image source signatures" then
    some (s, some "ğŸ” Verifying image signatures...")
  else if strStarts t "Copying blob" then
    match extract_blob_info t with
    | some bi =>
      let s1 := update_download_stats s bi
      match sliceUpTo bi.id 8 with
      | none => none
      | some id8 =>
        some (s1, some ("ğŸ“¥ Downloading layer " ++ id8 ++ " â€¢ "
          ++ toString s1.layers_downloaded ++ " layers total"))
    | none => some (s, some "ğŸ“¥ Downloading layers...")
  else if strStarts t "Copying config" then
    some (s, some "âš™ï¸  Copying configuration...")
  else if strStarts t "Writing manifest" then
    some (s, some "ğŸ“ Writing manifest...")
  else if strStarts t "-->" then
    if strContains t "Using cache" then
      let cachePart := strTrim ⟨stripAllPrefix "-->".data t.data⟩
      match stripPrefixOnce cachePart "Using cache " with
      | some layerId =>
        let s1 := update_cache_stats s true
        match sliceUpTo layerId 8 with
        | none => none
        | some id8 =>
          some (s1, some ("â™»ï¸  Cached layer " ++ id8 ++ " â€¢ " ++ toString s1.cache_hits
            ++ "/" ++ toString (s1.cache_hits + s1.cache_misses) ++ " cached"))
      | none =>
        let s1 := update_cache_stats s true
        some (s1, some "â™»ï¸  Using cached layer")
    else
      let layerId := strTrim ⟨stripAllPrefix "-->".data t.data⟩
      let s1 := update_cache_stats s false
      match sliceUpTo layerId 8 with
      | none => none
      | some id8 =>
        some (s1, some ("âœ… Layer " ++ id8 ++ " built â€¢ " ++ toString s1.cache_hits
          ++ "/" ++ toString (s1.cache_hits + s1.cache_misses) ++ " from cache"))
  else if strStarts t "COMMIT" then
    some (s, some ("ğŸ’¾ Committing image â€¢ " ++ toString s.layers_processed ++ " layers"))
  else if strStarts t "Successfully tagged" then
    match extract_tag_name t with
    | some tag => some (s, some ("ğŸ·ï¸  Tagged as " ++ tag))
    | none => some (s, none)
  else if strStarts t "Successfully built" then
    let buildId := strTrim ⟨stripAllPrefix "Successfully built".data t.data⟩
    let ratio := if 0 < s.cache_hits + s.cache_misses then
        fmtPct s.cache_hits (s.cache_hits + s.cache_misses)
      else "0.0"
    match sliceUpTo buildId 8 with
    | none => none
    | some id8 =>
      some (s, some ("ğŸ‰ Build completed! ID: " ++ id8 ++ " â€¢ " ++ ratio ++ "% cached"))
  else if strContains t "RUN" then
    some (s, some "âš™ï¸  Executing commands...")
  else if strContains t "COPY" then
    some (s, some "ğŸ“„ Copying files...")
  else if strContains t "FROM" then
    some (s, some "ğŸ—ï¸  Setting up base image...")
  else if strContains t "WORKDIR" then
    some (s, some "ğŸ“ Setting working directory...")
  else if strContains t "EXPOSE" then
    some (s, some "ğŸ”Œ Configuring ports...")
  else if strContains t "CMD" || strContains t "ENTRYPOINT" then
    some (s, some "ğŸ¯ Setting up entrypoint...")
  else if t ≠ "" then
    some (s, some ("ğŸ”„ " ++ t))
  else
    some (s, none)

/-- The event filter of `print_full_build_log_on_error` in `build.rs`: show
events that started, have logs, or are `[internal]`. -/
def event_shown (e : BuildEvent) : Bool :=
  e.started || !e.logs.isEmpty || strContains e.name "[internal]"

/-- `event.name.contains("[internal]")`, the internal/numbered partition test
of `print_full_build_log_on_error`. -/
def is_internal (e : BuildEvent) : Bool :=
  strContains e.name "[internal]"

/-- The comparator passed to `ordered_events.sort_by` in
`print_full_build_log_on_error`: internal events first among themselves by
name, internal before numbered, numbered by step number with `Some` before
`None`, and by name when both step numbers are absent. -/
def event_cmp (a b : BuildEvent) : Ordering :=
  match is_internal a, is_internal b with
  | true, true => cmpChars a.name.data b.name.data
  | true, false => .lt
  | false, true => .gt
  | false, false =>
    match a.step_number, b.step_number with
    | some x, some y => if x < y then .lt else if x = y then .eq else .gt
    | some _, none => .lt
    | none, some _ => .gt
    | none, none => cmpChars a.name.data b.name.data

/-- The non-strict order induced by the comparator: `a` may precede `b`. -/
def event_le (a b : BuildEvent) : Prop :=
  event_cmp a b ≠ Ordering.gt

instance decEventLe : DecidableRel event_le := fun a b =>
  if h : event_cmp a b = Ordering.gt then .isFalse (by simp [event_le, h]) else .isTrue h

/-- The filter-and-sort of `print_full_build_log_on_error`: Rust's
`sort_by` is a stable sort driven by the comparator, and a stable sort's
output is uniquely determined by the comparator and the input order, so the
stable `insertionSort` over `event_le` computes it. -/
def ordered_events (events : List BuildEvent) : List BuildEvent :=
  List.insertionSort event_le (events.filter event_shown)

/-- The `regular_logs` filter of `print_full_build_log_on_error` (lines
347-355): which `build_log` lines are echoed after the per-event section. -/
def regular_log_keep (line : String) : Bool :=
  let t := strTrim line
  strStarts t "ERROR:" ||
  (strStarts t "STEP " && !strContains t "[") ||
  (!strStarts t "STEP:" && !strStarts t "LOG:" && !strStarts t "PROGRESS:"
    && !strStarts t "IMAGE_ID:")

/-- The `regular_logs` list of `print_full_build_log_on_error`. -/
def regular_logs (build_log : List String) : List String :=
  build_log.filter regular_log_keep

/-- The per-line rendering loop of `print_full_build_log_on_error` (lines
357-376) at line number `n`: `some (some out)` prints `out`, `some none`
prints nothing (empty line), `none` is a panic of the `&trimmed_line[7..]` /
`&trimmed_line[10..]` slices. -/
def render_regular_line (n : Nat) (line : String) : Option (Option String) :=
  let t := strTrim line
  if strStarts t "ERROR:" then
    (sliceFrom t 7).map (fun r => some ("âŒ " ++ pad3 n ++ ": " ++ r))
  else if strStarts t "STEP " then
    some (some ("ğŸ”¹ " ++ pad3 n ++ ": " ++ t))
  else if strContains t "RUN " then
    some (some ("âš™ï¸  " ++ pad3 n ++ ": " ++ t))
  else if strContains t "COPY " || strContains t "ADD " then
    some (some ("ğŸ“ " ++ pad3 n ++ ": " ++ t))
  else if strContains t "FROM " then
    some (some ("ğŸ—ï¸  " ++ pad3 n ++ ": " ++ t))
  else if strStarts t "IMAGE_ID:" then
    (sliceFrom t 10).map (fun r => some ("ğŸ¯ " ++ pad3 n ++ ": Final image " ++ r))
  else if t ≠ "" then
    some (some ("   " ++ pad3 n ++ ": " ++ t))
  else
    some none

/-- The digests of all vertexes reported completed, in report order, across a
sequence of status responses. -/
def completed_digests (resps : List StatusResp) : List String :=
  ((resps.flatMap (fun r => r.vertexes)).filter (fun v => v.completed)).map (fun v => v.digest)

/-- Number of tracked digests whose recorded cached state is `true`. -/
def ctTrue (m : List (String × Bool)) : Nat :=
  m.countP (fun p => p.2)

/-- Number of tracked digests whose recorded cached state is `false`. -/
def ctFalse (m : List (String × Bool)) : Nat :=
  m.countP (fun p => !p.2)

/-- The aggregator's counter invariant: `vertex_states` has pairwise distinct
digests and the two cache counters count its `true` / `false` entries. -/
def statsInv (s : BuildStats) : Prop :=
  (mkeys s.vertex_states).Nodup ∧
  s.cache_hits = ctTrue s.vertex_states ∧
  s.cache_misses = ctFalse s.vertex_states

/-- The `(completed, cached)` view of the tracked event for digest `d`. -/
def evView (s : BuildStats) (d : String) : Option (Bool × Bool) :=
  (alookup d s.build_events).map (fun e => (e.completed, e.cached))

/-- Modelled from the spec: the `cached` value carried by the *first* report
that marks digest `d` completed, over a flat report sequence. -/
def first_completed_cached (reports : List Vertex) (d : String) : Option Bool :=
  (reports.find? (fun v => v.digest == d && v.completed)).map (fun v => v.cached)

/-- Modelled from the spec wording of C5: the `cached` value carried by the
*most recent* (last) report that marks digest `d` completed. -/
def last_completed_cached (reports : List Vertex) (d : String) : Option Bool :=
  ((reports.filter (fun v => v.digest == d && v.completed)).map (fun v => v.cached)).getLast?

/-- Invariant tying the tracked event's `(completed, cached)` view to the
first completion report seen so far. -/
def c5Inv (seen : List Vertex) (d : String) (s : BuildStats) : Prop :=
  match first_completed_cached seen d with
  | some b => evView s d = some (true, b)
  | none => ∀ p, evView s d = some p → p.1 = false

/-- Modelled from the claim C4 wording: adjacent-pair admissibility of the
claimed transcript order — internal entries first sorted lexicographically by
name, then the rest by step number ascending with absent step numbers last,
*all* ties broken by name. -/
def c4_claimed_pair (a b : BuildEvent) : Bool :=
  match is_internal a, is_internal b with
  | true, true => !(cmpChars a.name.data b.name.data == Ordering.gt)
  | true, false => true
  | false, true => false
  | false, false =>
    match a.step_number, b.step_number with
    | some x, some y =>
      if x < y then true
      else if x = y then !(cmpChars a.name.data b.name.data == Ordering.gt)
      else false
    | some _, none => true
    | none, some _ => false
    | none, none => !(cmpChars a.name.data b.name.data == Ordering.gt)

/-- Modelled from the claim C4 wording: the transcript order the claim
asserts, as a sortedness predicate. -/
def c4_claimed_order (l : List BuildEvent) : Prop :=
  List.Pairwise (fun a b => c4_claimed_pair a b = true) l

/-- Step-number admissibility actually enforced by the comparator between two
non-internal entries: ascending step numbers, absent numbers last, name order
only when both numbers are absent (equal step numbers admit either order). -/
def step_pair_ok (a b : BuildEvent) : Prop :=
  match a.step_number, b.step_number with
  | some x, some y => x ≤ y
  | some _, none => True
  | none, some _ => False
  | none, none => cmpChars a.name.data b.name.data ≠ Ordering.gt

/-- Adjacent-pair admissibility of the transcript order the code actually
produces. -/
def diag_pair_ok (a b : BuildEvent) : Prop :=
  (is_internal a = true ∧ is_internal b = false) ∨
  (is_internal a = true ∧ is_internal b = true ∧ cmpChars a.name.data b.name.data ≠ Ordering.gt) ∨
  (is_internal a = false ∧ is_internal b = false ∧ step_pair_ok a b)

theorem alookup_mapInsert_self {α : Type} (m : List (String × α)) (k : String) (v : α) :
    alookup k (mapInsert m k v) = some v := by
  induction m with
  | nil => simp [mapInsert, alookup]
  | cons p t ih =>
    by_cases h : p.1 = k
    · simp [mapInsert, h, alookup]
    · simp [mapInsert, h, alookup, ih]

theorem mkeys_nil {α : Type} : mkeys ([] : List (String × α)) = [] := rfl

theorem mkeys_cons {α : Type} (p : String × α) (t : List (String × α)) :
    mkeys (p :: t) = p.1 :: mkeys t := rfl

theorem alookup_mapInsert_ne {α : Type} (m : List (String × α)) (k k' : String) (v : α)
    (h : k' ≠ k) : alookup k' (mapInsert m k v) = alookup k' m := by
  induction m with
  | nil => simp [mapInsert, alookup, Ne.symm h]
  | cons p t ih =>
    obtain ⟨k₀, v₀⟩ := p
    by_cases hp : k₀ = k
    · subst hp
      simp [mapInsert, alookup, Ne.symm h]
    · simp only [mapInsert, if_neg hp, alookup]
      by_cases hp' : k₀ = k'
      · simp [hp']
      · simp [hp', ih]

theorem mapInsert_lookup_eq {α : Type} (m : List (String × α)) (k : String) (v : α)
    (h : alookup k m = some v) : mapInsert m k v = m := by
  induction m with
  | nil => simp [alookup] at h
  | cons p t ih =>
    obtain ⟨k₀, v₀⟩ := p
    by_cases hp : k₀ = k
    · subst hp
      simp [alookup] at h
      simp [mapInsert, h]
    · simp [alookup, hp] at h
      simp [mapInsert, hp, ih h]

theorem alookup_eq_none_iff {α : Type} (m : List (String × α)) (k : String) :
    alookup k m = none ↔ k ∉ mkeys m := by
  induction m with
  | nil => simp [alookup, mkeys_nil]
  | cons p t ih =>
    obtain ⟨k₀, v₀⟩ := p
    by_cases hp : k₀ = k
    · simp [alookup, hp, mkeys_cons]
    · simp [alookup, hp, mkeys_cons, ih, Ne.symm hp]

theorem alookup_isSome_of_mem {α : Type} (m : List (String × α)) (k : String)
    (h : k ∈ mkeys m) : (alookup k m).isSome := by
  cases ho : alookup k m with
  | none => exact absurd ((alookup_eq_none_iff m k).mp ho) (by simpa using h)
  | some v => rfl

theorem mapInsert_of_not_mem {α : Type} (m : List (String × α)) (k : String) (v : α)
    (h : k ∉ mkeys m) : mapInsert m k v = m ++ [(k, v)] := by
  induction m with
  | nil => simp [mapInsert]
  | cons p t ih =>
    obtain ⟨k₀, v₀⟩ := p
    rw [mkeys_cons, List.mem_cons] at h
    push_neg at h
    simp [mapInsert, Ne.symm h.1, ih h.2]

theorem mkeys_mapInsert_of_mem {α : Type} (m : List (String × α)) (k : String) (v : α)
    (h : k ∈ mkeys m) : mkeys (mapInsert m k v) = mkeys m := by
  induction m with
  | nil => simp [mkeys_nil] at h
  | cons p t ih =>
    obtain ⟨k₀, v₀⟩ := p
    by_cases hp : k₀ = k
    · simp [mapInsert, hp, mkeys_cons]
    · rw [mkeys_cons, List.mem_cons] at h
      rcases h with h | h
      · exact absurd h.symm hp
      · simp [mapInsert, hp, mkeys_cons, ih h]

theorem countP_val_mapInsert {α : Type} (q : α → Bool) (m : List (String × α)) (k : String)
    (v b : α) (h : alookup k m = some b) :
    (mapInsert m k v).countP (fun p => q p.2) + (if q b then 1 else 0) =
      m.countP (fun p => q p.2) + (if q v then 1 else 0) := by
  induction m with
  | nil => simp [alookup] at h
  | cons p t ih =>
    by_cases hp : p.1 = k
    · simp [alookup, hp] at h
      subst h
      simp [mapInsert, hp, List.countP_cons]
      omega
    · simp [alookup, hp] at h
      have := ih h
      simp [mapInsert, hp, List.countP_cons]
      omega

theorem length_mapInsert_of_mem {α : Type} (m : List (String × α)) (k : String) (v b : α)
    (h : alookup k m = some b) : (mapInsert m k v).length = m.length := by
  induction m with
  | nil => simp [alookup] at h
  | cons p t ih =>
    by_cases hp : p.1 = k
    · simp [mapInsert, hp]
    · simp [alookup, hp] at h
      simp [mapInsert, hp, ih h]

theorem ct_sum (m : List (String × Bool)) : ctTrue m + ctFalse m = m.length := by
  induction m with
  | nil => simp [ctTrue, ctFalse]
  | cons p t ih =>
    simp [ctTrue, ctFalse, List.countP_cons] at *
    cases hb : p.2 <;> simp [hb] <;> omega

theorem apply_completion_not_tracked (s : BuildStats) (d : String) (c : Bool)
    (hl : alookup d s.vertex_states = none) :
    apply_completion s d c =
      { s with vertex_states := s.vertex_states ++ [(d, c)],
               cache_hits := s.cache_hits + (if c then 1 else 0),
               cache_misses := s.cache_misses + (if c then 0 else 1),
               layers_processed := s.layers_processed + 1 } := by
  have hmem := (alookup_eq_none_iff _ _).mp hl
  unfold apply_completion
  rw [hl]
  cases c <;> simp [mapInsert_of_not_mem _ _ _ hmem]

theorem apply_completion_same (s : BuildStats) (d : String) (c : Bool)
    (hl : alookup d s.vertex_states = some c) :
    apply_completion s d c = s := by
  unfold apply_completion
  rw [hl]
  simp [mapInsert_lookup_eq _ _ _ hl]

theorem apply_completion_flip (s : BuildStats) (d : String) (c b : Bool)
    (hl : alookup d s.vertex_states = some b) (hne : b ≠ c) :
    apply_completion s d c =
      { s with vertex_states := mapInsert s.vertex_states d c,
               cache_hits := if c then s.cache_hits + 1 else s.cache_hits - 1,
               cache_misses := if c then s.cache_misses - 1 else s.cache_misses + 1 } := by
  unfold apply_completion
  rw [hl]
  cases b <;> cases c <;> simp_all

theorem update_build_event_proj (s : BuildStats) (v : Vertex) :
    (update_build_event s v).vertex_states = s.vertex_states ∧
    (update_build_event s v).cache_hits = s.cache_hits ∧
    (update_build_event s v).cache_misses = s.cache_misses ∧
    (update_build_event s v).layers_processed = s.layers_processed ∧
    (update_build_event s v).current_step = s.current_step ∧
    (update_build_event s v).total_steps = s.total_steps ∧
    (update_build_event s v).build_log = s.build_log :=
  ⟨rfl, rfl, rfl, rfl, rfl, rfl, rfl⟩

theorem apply_vertex_log_proj (s : BuildStats) (l : LogItem) :
    (apply_vertex_log s l).vertex_states = s.vertex_states ∧
    (apply_vertex_log s l).cache_hits = s.cache_hits ∧
    (apply_vertex_log s l).cache_misses = s.cache_misses ∧
    (apply_vertex_log s l).layers_processed = s.layers_processed ∧
    (apply_vertex_log s l).current_step = s.current_step ∧
    (apply_vertex_log s l).total_steps = s.total_steps ∧
    (apply_vertex_log s l).build_log = s.build_log := by
  unfold apply_vertex_log
  dsimp only
  split
  · split
    · split
      · exact ⟨rfl, rfl, rfl, rfl, rfl, rfl, rfl⟩
      · exact ⟨rfl, rfl, rfl, rfl, rfl, rfl, rfl⟩
    · exact ⟨rfl, rfl, rfl, rfl, rfl, rfl, rfl⟩
  · exact ⟨rfl, rfl, rfl, rfl, rfl, rfl, rfl⟩

theorem handle_dockerfile_step_stats_proj (s : BuildStats) (n : String) :
    (handle_dockerfile_step_stats s n).vertex_states = s.vertex_states ∧
    (handle_dockerfile_step_stats s n).cache_hits = s.cache_hits ∧
    (handle_dockerfile_step_stats s n).cache_misses = s.cache_misses ∧
    (handle_dockerfile_step_stats s n).layers_processed = s.layers_processed ∧
    (handle_dockerfile_step_stats s n).build_events = s.build_events ∧
    (handle_dockerfile_step_stats s n).build_log = s.build_log := by
  unfold handle_dockerfile_step_stats
  split
  · exact ⟨rfl, rfl, rfl, rfl, rfl, rfl⟩
  · exact ⟨rfl, rfl, rfl, rfl, rfl, rfl⟩

theorem apply_completion_proj (s : BuildStats) (d : String) (c : Bool) :
    (apply_completion s d c).build_events = s.build_events ∧
    (apply_completion s d c).build_log = s.build_log ∧
    (apply_completion s d c).current_step = s.current_step ∧
    (apply_completion s d c).total_steps = s.total_steps := by
  unfold apply_completion
  dsimp only
  split
  · split <;> exact ⟨rfl, rfl, rfl, rfl⟩
  · split
    · split
      · exact ⟨rfl, rfl, rfl, rfl⟩
      · split
        · exact ⟨rfl, rfl, rfl, rfl⟩
        · exact ⟨rfl, rfl, rfl, rfl⟩
    · exact ⟨rfl, rfl, rfl, rfl⟩

theorem process_vertex_direct_build_events (s : BuildStats) (v : Vertex) :
    (process_vertex_direct s v).build_events = s.build_events := by
  unfold process_vertex_direct
  dsimp only
  split
  · split
    · rw [(handle_dockerfile_step_stats_proj _ _).2.2.2.2.1,
        (apply_completion_proj _ _ _).1]
    · rw [(handle_dockerfile_step_stats_proj _ _).2.2.2.2.1]
  · split
    · rw [(apply_completion_proj _ _ _).1]
    · rfl

theorem mkeys_append_single {α : Type} (m : List (String × α)) (p : String × α) :
    mkeys (m ++ [p]) = mkeys m ++ [p.1] := by
  simp [mkeys]

theorem ctTrue_append_single (m : List (String × Bool)) (d : String) (c : Bool) :
    ctTrue (m ++ [(d, c)]) = ctTrue m + (if c then 1 else 0) := by
  cases c <;> simp [ctTrue, List.countP_append, List.countP_cons]

theorem ctFalse_append_single (m : List (String × Bool)) (d : String) (c : Bool) :
    ctFalse (m ++ [(d, c)]) = ctFalse m + (if c then 0 else 1) := by
  cases c <;> simp [ctFalse, List.countP_append, List.countP_cons]

theorem ctTrue_mapInsert (m : List (String × Bool)) (d : String) (c b : Bool)
    (hl : alookup d m = some b) :
    ctTrue (mapInsert m d c) + (if b then 1 else 0) = ctTrue m + (if c then 1 else 0) := by
  simpa [ctTrue] using countP_val_mapInsert (fun x => x) m d c b hl

theorem ctFalse_mapInsert (m : List (String × Bool)) (d : String) (c b : Bool)
    (hl : alookup d m = some b) :
    ctFalse (mapInsert m d c) + (if b then 0 else 1) = ctFalse m + (if c then 0 else 1) := by
  have := countP_val_mapInsert (fun x => !x) m d c b hl
  cases b <;> cases c <;> simpa [ctFalse] using this

theorem statsInv_empty : statsInv emptyBuildStats := by
  refine ⟨?_, ?_, ?_⟩ <;> simp [emptyBuildStats, mkeys, statsInv, ctTrue, ctFalse]

theorem statsInv_congr (s s' : BuildStats) (hv : s'.vertex_states = s.vertex_states)
    (hh : s'.cache_hits = s.cache_hits) (hm : s'.cache_misses = s.cache_misses)
    (h : statsInv s) : statsInv s' := by
  unfold statsInv at *
  rw [hv, hh, hm]
  exact h

theorem statsInv_apply_completion (s : BuildStats) (d : String) (c : Bool) (h : statsInv s) :
    statsInv (apply_completion s d c) ∧
    (mkeys (apply_completion s d c).vertex_states).toFinset =
      insert d (mkeys s.vertex_states).toFinset := by
  obtain ⟨hnd, hh, hm⟩ := h
  cases hl : alookup d s.vertex_states with
  | none =>
    have hmem : d ∉ mkeys s.vertex_states := (alookup_eq_none_iff _ _).mp hl
    rw [apply_completion_not_tracked s d c hl]
    refine ⟨⟨?_, ?_, ?_⟩, ?_⟩
    · simpa [mkeys_append_single, List.nodup_append, hnd] using hmem
    · cases c <;> simp [ctTrue_append_single, hh]
    · cases c <;> simp [ctFalse_append_single, hm]
    · ext x
      simp [mkeys_append_single, or_comm]
  | some b =>
    have hmem : d ∈ mkeys s.vertex_states := by
      by_contra hc
      rw [← alookup_eq_none_iff] at hc
      rw [hl] at hc
      exact Option.noConfusion hc
    have hkeys : (mkeys (mapInsert s.vertex_states d c)).toFinset =
        insert d (mkeys s.vertex_states).toFinset := by
      rw [mkeys_mapInsert_of_mem _ _ _ hmem,
        Finset.insert_eq_self.mpr (List.mem_toFinset.mpr hmem)]
    by_cases hbc : b = c
    · subst hbc
      rw [apply_completion_same s d b hl]
      refine ⟨⟨hnd, hh, hm⟩, ?_⟩
      exact (Finset.insert_eq_self.mpr (List.mem_toFinset.mpr hmem)).symm
    · rw [apply_completion_flip s d c b hl hbc]
      have ht := ctTrue_mapInsert s.vertex_states d c b hl
      have hf := ctFalse_mapInsert s.vertex_states d c b hl
      have hndk : (mkeys (mapInsert s.vertex_states d c)).Nodup := by
        rw [mkeys_mapInsert_of_mem _ _ _ hmem]
        exact hnd
      refine ⟨⟨hndk, ?_, ?_⟩, hkeys⟩
      · cases b <;> cases c <;> simp_all <;> omega
      · cases b <;> cases c <;> simp_all <;> omega

theorem statsInv_process_vertex (s : BuildStats) (v : Vertex) (h : statsInv s) :
    statsInv (process_vertex_direct s v) ∧
    (mkeys (process_vertex_direct s v).vertex_states).toFinset =
      (if v.completed then insert v.digest (mkeys s.vertex_states).toFinset
       else (mkeys s.vertex_states).toFinset) := by
  unfold process_vertex_direct
  dsimp only
  have hds := handle_dockerfile_step_stats_proj
  split
  · split
    · obtain ⟨h1, h2⟩ := statsInv_apply_completion s v.digest v.cached h
      constructor
      · exact statsInv_congr _ _ (hds _ _).1 (hds _ _).2.1 (hds _ _).2.2.1 h1
      · rw [(hds _ _).1]
        simpa using h2
    · constructor
      · exact statsInv_congr _ _ (hds _ _).1 (hds _ _).2.1 (hds _ _).2.2.1 h
      · rw [(hds _ _).1]
  · split
    · obtain ⟨h1, h2⟩ := statsInv_apply_completion s v.digest v.cached h
      exact ⟨h1, by simpa using h2⟩
    · exact ⟨h, rfl⟩

theorem statsInv_fold_direct (vs : List Vertex) (s : BuildStats) (h : statsInv s) :
    statsInv (vs.foldl process_vertex_direct s) ∧
    (mkeys (vs.foldl process_vertex_direct s).vertex_states).toFinset =
      (mkeys s.vertex_states).toFinset ∪
        ((vs.filter (fun v => v.completed)).map (fun v => v.digest)).toFinset := by
  induction vs generalizing s with
  | nil => simp [h]
  | cons v rest ih =>
    obtain ⟨h1, h2⟩ := statsInv_process_vertex s v h
    obtain ⟨h3, h4⟩ := ih _ h1
    refine ⟨h3, ?_⟩
    rw [List.foldl_cons, h4, h2]
    cases hv : v.completed <;>
      simp [List.filter_cons, hv, Finset.insert_union, Finset.union_insert]

theorem fold_update_build_event_proj (vs : List Vertex) (s : BuildStats) :
    (vs.foldl update_build_event s).vertex_states = s.vertex_states ∧
    (vs.foldl update_build_event s).cache_hits = s.cache_hits ∧
    (vs.foldl update_build_event s).cache_misses = s.cache_misses ∧
    (vs.foldl update_build_event s).layers_processed = s.layers_processed := by
  induction vs generalizing s with
  | nil => exact ⟨rfl, rfl, rfl, rfl⟩
  | cons v rest ih =>
    have hu := update_build_event_proj s v
    have hr := ih (update_build_event s v)
    exact ⟨hr.1.trans hu.1, hr.2.1.trans hu.2.1, hr.2.2.1.trans hu.2.2.1,
      hr.2.2.2.trans hu.2.2.2.1⟩

theorem fold_apply_vertex_log_proj (ls : List LogItem) (s : BuildStats) :
    (ls.foldl apply_vertex_log s).vertex_states = s.vertex_states ∧
    (ls.foldl apply_vertex_log s).cache_hits = s.cache_hits ∧
    (ls.foldl apply_vertex_log s).cache_misses = s.cache_misses ∧
    (ls.foldl apply_vertex_log s).layers_processed = s.layers_processed := by
  induction ls generalizing s with
  | nil => exact ⟨rfl, rfl, rfl, rfl⟩
  | cons l rest ih =>
    have hu := apply_vertex_log_proj s l
    have hr := ih (apply_vertex_log s l)
    exact ⟨hr.1.trans hu.1, hr.2.1.trans hu.2.1, hr.2.2.1.trans hu.2.2.1,
      hr.2.2.2.trans hu.2.2.2.1⟩

theorem statsInv_handle_status (s : BuildStats) (r : StatusResp) (h : statsInv s) :
    statsInv (handle_status_response s r) ∧
    (mkeys (handle_status_response s r).vertex_states).toFinset =
      (mkeys s.vertex_states).toFinset ∪
        ((r.vertexes.filter (fun v => v.completed)).map (fun v => v.digest)).toFinset := by
  unfold handle_status_response
  dsimp only
  have f1 := fold_update_build_event_proj r.vertexes s
  have f2 := fold_apply_vertex_log_proj r.logs (r.vertexes.foldl update_build_event s)
  have h2 : statsInv (r.logs.foldl apply_vertex_log (r.vertexes.foldl update_build_event s)) :=
    statsInv_congr _ _ (f2.1.trans f1.1) (f2.2.1.trans f1.2.1) (f2.2.2.1.trans f1.2.2.1) h
  obtain ⟨hA, hB⟩ := statsInv_fold_direct r.vertexes _ h2
  refine ⟨hA, ?_⟩
  rw [hB, f2.1, f1.1]

theorem completed_digests_cons (r : StatusResp) (rest : List StatusResp) :
    completed_digests (r :: rest) =
      ((r.vertexes.filter (fun v => v.completed)).map (fun v => v.digest)) ++
        completed_digests rest := by
  simp [completed_digests]

theorem statsInv_fold_resps (resps : List StatusResp) (s : BuildStats) (h : statsInv s) :
    statsInv (resps.foldl handle_status_response s) ∧
    (mkeys (resps.foldl handle_status_response s).vertex_states).toFinset =
      (mkeys s.vertex_states).toFinset ∪ (completed_digests resps).toFinset := by
  induction resps generalizing s with
  | nil => simp [completed_digests, h]
  | cons r rest ih =>
    obtain ⟨h1, h2⟩ := statsInv_handle_status s r h
    obtain ⟨h3, h4⟩ := ih _ h1
    refine ⟨h3, ?_⟩
    rw [List.foldl_cons, h4, h2, completed_digests_cons, List.toFinset_append,
      Finset.union_assoc]

/-- C1: for every sequence of BuildKit status responses applied to an
initially empty `BuildStats`, `cache_hits + cache_misses` equals the number of
distinct digests reported completed at least once; in particular, for any
non-empty report sequence carrying a single digest, the sum is 1. -/
theorem c1_cache_counters_distinct_completed :
    (∀ resps : List StatusResp,
      (resps.foldl handle_status_response emptyBuildStats).cache_hits +
        (resps.foldl handle_status_response emptyBuildStats).cache_misses =
        (completed_digests resps).dedup.length) ∧
    (∀ (resps : List StatusResp) (d : String), completed_digests resps ≠ [] →
      (∀ x ∈ completed_digests resps, x = d) →
      (resps.foldl handle_status_response emptyBuildStats).cache_hits +
        (resps.foldl handle_status_response emptyBuildStats).cache_misses = 1) := by
  have main : ∀ resps : List StatusResp,
      (resps.foldl handle_status_response emptyBuildStats).cache_hits +
        (resps.foldl handle_status_response emptyBuildStats).cache_misses =
        (completed_digests resps).dedup.length := by
    intro resps
    obtain ⟨⟨hnd, hh, hm⟩, hkeys⟩ := statsInv_fold_resps resps emptyBuildStats statsInv_empty
    rw [hh, hm, ct_sum]
    have hlen : (resps.foldl handle_status_response emptyBuildStats).vertex_states.length =
        (mkeys (resps.foldl handle_status_response emptyBuildStats).vertex_states).length := by
      simp [mkeys]
    rw [hlen, ← List.toFinset_card_of_nodup hnd, hkeys]
    have hempty : (mkeys emptyBuildStats.vertex_states).toFinset = ∅ := rfl
    rw [hempty, Finset.empty_union, List.card_toFinset]
  refine ⟨main, ?_⟩
  intro resps d hne hall
  rw [main resps]
  have hfin : (completed_digests resps).toFinset = {d} := by
    ext x
    simp only [List.mem_toFinset, Finset.mem_singleton]
    constructor
    · exact fun hx => hall x hx
    · intro hx
      subst hx
      obtain ⟨y, hy⟩ := List.exists_mem_of_ne_nil _ hne
      have := hall y hy
      subst this
      exact hy
  rw [← List.card_toFinset, hfin, Finset.card_singleton]

/-- Witness for C1: a single digest completed twice yields counter sum 1. -/
theorem c1_cache_counters_distinct_completed_witness :
    completed_digests [⟨[⟨"sha256:a", "[1/1] RUN x", true, true, false⟩,
        ⟨"sha256:a", "[1/1] RUN x", true, true, true⟩], []⟩] ≠ [] ∧
    (([⟨[⟨"sha256:a", "[1/1] RUN x", true, true, false⟩,
        ⟨"sha256:a", "[1/1] RUN x", true, true, true⟩], []⟩] : List StatusResp).foldl
          handle_status_response emptyBuildStats).cache_hits +
      (([⟨[⟨"sha256:a", "[1/1] RUN x", true, true, false⟩,
        ⟨"sha256:a", "[1/1] RUN x", true, true, true⟩], []⟩] : List StatusResp).foldl
          handle_status_response emptyBuildStats).cache_misses = 1 :=
  ⟨by decide,
    c1_cache_counters_distinct_completed.2 _ "sha256:a" (by decide) (by decide)⟩

theorem pvd_not_tracked (s : BuildStats) (v : Vertex) (hc : v.completed = true)
    (hl : alookup v.digest s.vertex_states = none) :
    (process_vertex_direct s v).cache_hits = s.cache_hits + (if v.cached then 1 else 0) ∧
    (process_vertex_direct s v).cache_misses = s.cache_misses + (if v.cached then 0 else 1) ∧
    (process_vertex_direct s v).layers_processed = s.layers_processed + 1 ∧
    (process_vertex_direct s v).vertex_states = s.vertex_states ++ [(v.digest, v.cached)] := by
  unfold process_vertex_direct
  dsimp only
  rw [if_pos hc, apply_completion_not_tracked s v.digest v.cached hl]
  have hds := handle_dockerfile_step_stats_proj
  split
  · exact ⟨by rw [(hds _ _).2.1], by rw [(hds _ _).2.2.1], by rw [(hds _ _).2.2.2.1],
      by rw [(hds _ _).1]⟩
  · exact ⟨rfl, rfl, rfl, rfl⟩

theorem pvd_flip (s : BuildStats) (v : Vertex) (b : Bool) (hc : v.completed = true)
    (hl : alookup v.digest s.vertex_states = some b) (hne : b ≠ v.cached) :
    (process_vertex_direct s v).cache_hits =
      (if v.cached then s.cache_hits + 1 else s.cache_hits - 1) ∧
    (process_vertex_direct s v).cache_misses =
      (if v.cached then s.cache_misses - 1 else s.cache_misses + 1) ∧
    (process_vertex_direct s v).layers_processed = s.layers_processed ∧
    (process_vertex_direct s v).vertex_states = mapInsert s.vertex_states v.digest v.cached := by
  unfold process_vertex_direct
  dsimp only
  rw [if_pos hc, apply_completion_flip s v.digest v.cached b hl hne]
  have hds := handle_dockerfile_step_stats_proj
  split
  · exact ⟨by rw [(hds _ _).2.1], by rw [(hds _ _).2.2.1], by rw [(hds _ _).2.2.2.1],
      by rw [(hds _ _).1]⟩
  · exact ⟨rfl, rfl, rfl, rfl⟩

theorem hsr_single (s : BuildStats) (v : Vertex) :
    handle_status_response s ⟨[v], []⟩ = process_vertex_direct (update_build_event s v) v := rfl

/-- C2: re-reporting a completion whose `cached` value matches the digest's
stored `vertex_states` entry changes none of `cache_hits`, `cache_misses`,
`layers_processed`. -/
theorem c2_reconciliation_idempotent (s : BuildStats) (v : Vertex)
    (hc : v.completed = true)
    (hl : alookup v.digest s.vertex_states = some v.cached) :
    (handle_status_response s ⟨[v], []⟩).cache_hits = s.cache_hits ∧
    (handle_status_response s ⟨[v], []⟩).cache_misses = s.cache_misses ∧
    (handle_status_response s ⟨[v], []⟩).layers_processed = s.layers_processed := by
  rw [hsr_single]
  have hu := update_build_event_proj s v
  have hl' : alookup v.digest (update_build_event s v).vertex_states = some v.cached := by
    rw [hu.1]
    exact hl
  unfold process_vertex_direct
  dsimp only
  rw [if_pos hc, apply_completion_same _ _ _ hl']
  have hds := handle_dockerfile_step_stats_proj (update_build_event s v) v.name
  split
  · exact ⟨by rw [hds.2.1, hu.2.1], by rw [hds.2.2.1, hu.2.2.1],
      by rw [hds.2.2.2.1, hu.2.2.2.1]⟩
  · exact ⟨hu.2.1, hu.2.2.1, hu.2.2.2.1⟩

/-- Witness for C2 at a concrete already-tracked state. -/
theorem c2_reconciliation_idempotent_witness :
    (handle_status_response
        { emptyBuildStats with
          vertex_states := [("sha256:a", true)]
          cache_hits := 1
          layers_processed := 1 }
        ⟨[⟨"sha256:a", "[1/1] RUN x", true, true, true⟩], []⟩).cache_hits =
      ({ emptyBuildStats with
          vertex_states := [("sha256:a", true)]
          cache_hits := 1
          layers_processed := 1 } : BuildStats).cache_hits ∧
    (handle_status_response
        { emptyBuildStats with
          vertex_states := [("sha256:a", true)]
          cache_hits := 1
          layers_processed := 1 }
        ⟨[⟨"sha256:a", "[1/1] RUN x", true, true, true⟩], []⟩).cache_misses =
      ({ emptyBuildStats with
          vertex_states := [("sha256:a", true)]
          cache_hits := 1
          layers_processed := 1 } : BuildStats).cache_misses ∧
    (handle_status_response
        { emptyBuildStats with
          vertex_states := [("sha256:a", true)]
          cache_hits := 1
          layers_processed := 1 }
        ⟨[⟨"sha256:a", "[1/1] RUN x", true, true, true⟩], []⟩).layers_processed =
      ({ emptyBuildStats with
          vertex_states := [("sha256:a", true)]
          cache_hits := 1
          layers_processed := 1 } : BuildStats).layers_processed :=
  c2_reconciliation_idempotent _ _ rfl (by decide)

/-- C3: a digest first reported completed with `cached = false` and later
re-reported completed with `cached = true` (no other digests) ends with
`cache_hits = 1`, `cache_misses = 0`, `layers_processed = 1` — the old
counter is decremented, the new one incremented, and `layers_processed` is
not incremented twice.  Quantified over the digest, the vertex names, and the
started flags. -/
theorem c3_cache_state_upgrade (d n1 n2 : String) (st1 st2 : Bool) :
    (([⟨[⟨d, n1, st1, true, false⟩], []⟩, ⟨[⟨d, n2, st2, true, true⟩], []⟩] :
        List StatusResp).foldl handle_status_response emptyBuildStats).cache_hits = 1 ∧
    (([⟨[⟨d, n1, st1, true, false⟩], []⟩, ⟨[⟨d, n2, st2, true, true⟩], []⟩] :
        List StatusResp).foldl handle_status_response emptyBuildStats).cache_misses = 0 ∧
    (([⟨[⟨d, n1, st1, true, false⟩], []⟩, ⟨[⟨d, n2, st2, true, true⟩], []⟩] :
        List StatusResp).foldl handle_status_response emptyBuildStats).layers_processed = 1 := by
  rw [List.foldl_cons, List.foldl_cons, List.foldl_nil, hsr_single, hsr_single]
  have hu1 := update_build_event_proj emptyBuildStats ⟨d, n1, st1, true, false⟩
  have hl1 : alookup d (update_build_event emptyBuildStats
      ⟨d, n1, st1, true, false⟩).vertex_states = none := by
    rw [hu1.1]
    rfl
  have hp1 := pvd_not_tracked (update_build_event emptyBuildStats ⟨d, n1, st1, true, false⟩)
    ⟨d, n1, st1, true, false⟩ rfl hl1
  dsimp only at hp1
  have hu2 := update_build_event_proj
    (process_vertex_direct (update_build_event emptyBuildStats ⟨d, n1, st1, true, false⟩)
      ⟨d, n1, st1, true, false⟩) ⟨d, n2, st2, true, true⟩
  have hl2 : alookup d (update_build_event
      (process_vertex_direct (update_build_event emptyBuildStats ⟨d, n1, st1, true, false⟩)
        ⟨d, n1, st1, true, false⟩) ⟨d, n2, st2, true, true⟩).vertex_states = some false := by
    rw [hu2.1, hp1.2.2.2, hu1.1]
    simp [alookup, emptyBuildStats]
  have hp2 := pvd_flip _ ⟨d, n2, st2, true, true⟩ false rfl hl2 (by simp)
  dsimp only at hp2
  rw [if_pos rfl] at hp2
  refine ⟨?_, ?_, ?_⟩
  · rw [hp2.1, hu2.2.1, hp1.1, hu1.2.1]
    rfl
  · rw [hp2.2.1, hu2.2.2.1, hp1.2.1, hu1.2.2.1]
    rfl
  · rw [hp2.2.2.1, hu2.2.2.2.1, hp1.2.2.1, hu1.2.2.2.1]
    rfl

/-- C10: in verbose mode a BuildKit aux event only appends its debug rendering
to `build_log`; `build_events`, `vertex_states` and all counters are
untouched. -/
theorem c10_verbose_aux_frame (s : BuildStats) (dbg : String) :
    (verbose_aux_step s dbg).build_events = s.build_events ∧
    (verbose_aux_step s dbg).vertex_states = s.vertex_states ∧
    (verbose_aux_step s dbg).cache_hits = s.cache_hits ∧
    (verbose_aux_step s dbg).cache_misses = s.cache_misses ∧
    (verbose_aux_step s dbg).layers_processed = s.layers_processed ∧
    (verbose_aux_step s dbg).total_steps = s.total_steps ∧
    (verbose_aux_step s dbg).current_step = s.current_step ∧
    (verbose_aux_step s dbg).build_log = s.build_log ++ ["BuildKit event: " ++ dbg] :=
  ⟨rfl, rfl, rfl, rfl, rfl, rfl, rfl, rfl⟩

/-- C9: `format_bytes` scales by repeated division by 1024 through
B/KB/MB/GB/TB with one decimal except in the unscaled B case, and matches the
four sample values. -/
theorem c9_format_bytes_scaling :
    format_bytes 0 = "0 B" ∧ format_bytes 1024 = "1.0 KB" ∧
    format_bytes 1536 = "1.5 KB" ∧ format_bytes 1073741824 = "1.0 GB" ∧
    (∀ b, b < 1024 → format_bytes b = toString b ++ " B") ∧
    (∀ b, 1024 ≤ b → ∃ t u, format_bytes b = fmtOneDec t ++ (" " ++ u) ∧
      (u = "KB" ∨ u = "MB" ∨ u = "GB" ∨ u = "TB")) := by
  refine ⟨by decide, by decide, by decide, by decide, ?_, ?_⟩
  · intro b hb
    unfold format_bytes
    rw [if_pos hb]
  · intro b hb
    unfold format_bytes
    rw [if_neg (by omega)]
    split
    · exact ⟨_, "KB", rfl, by simp⟩
    · split
      · exact ⟨_, "MB", rfl, by simp⟩
      · split
        · exact ⟨_, "GB", rfl, by simp⟩
        · exact ⟨_, "TB", rfl, by simp⟩

/-- Witness for C9 on both sides of the scaling threshold. -/
theorem c9_format_bytes_scaling_witness :
    format_bytes 512 = toString 512 ++ " B" ∧
    ∃ t u, format_bytes 2048 = fmtOneDec t ++ (" " ++ u) ∧
      (u = "KB" ∨ u = "MB" ∨ u = "GB" ∨ u = "TB") :=
  ⟨c9_format_bytes_scaling.2.2.2.2.1 512 (by decide),
    c9_format_bytes_scaling.2.2.2.2.2 2048 (by decide)⟩

/-- C8 (amended): the millisecond / seconds / minutes three-tier rendering
belongs to `format_duration` (used for the total/build/verify durations of the
final completion message); the Summary Formatter's own elapsed field
(`timing_info` in `get_build_summary`) is always seconds with one decimal. -/
theorem c8_duration_rendering (ms : Nat) :
    (ms < 1000 → format_duration ms = toString ms ++ "ms") ∧
    (1000 ≤ ms → ms < 60000 → format_duration ms = fmtOneDec (rheDiv ms 100) ++ "s") ∧
    (60000 ≤ ms → format_duration ms = fmtOneDec (rheDiv ms 6000) ++ "m") ∧
    summary_timing true ms = "â±ï¸  " ++ fmtOneDec (rheDiv ms 100) ++ "s total build time" := by
  refine ⟨?_, ?_, ?_, rfl⟩
  · intro h
    unfold format_duration
    rw [if_neg (by omega), if_neg (by omega)]
  · intro h1 h2
    unfold format_duration
    rw [if_neg (by omega), if_pos h1]
  · intro h
    unfold format_duration
    rw [if_pos h]

/-- Witness for C8 in each duration tier. -/
theorem c8_duration_rendering_witness :
    format_duration 500 = "500ms" ∧ format_duration 1500 = "1.5s" ∧
    format_duration 90000 = "1.5m" :=
  ⟨((c8_duration_rendering 500).1 (by decide)).trans (by decide),
    ((c8_duration_rendering 1500).2.1 (by decide) (by decide)).trans (by decide),
    ((c8_duration_rendering 90000).2.2.1 (by decide)).trans (by decide)⟩

/-- Counterexample to C8 as stated: at 500 ms elapsed (under one second) the
Summary Formatter's elapsed field reads `0.5s …`, with no millisecond
rendering anywhere in it. -/
theorem c8_summary_not_milliseconds :
    summary_timing true 500 = "â±ï¸  0.5s total build time" ∧
    strContains (summary_timing true 500) "ms" = false := by
  constructor
  · decide
  · decide

/-- C6: per-event processing can panic on short fragments — the layer-id
slice `&layer_id[..8]` in `parse_and_display_build_output` on the line
`"--> abc"`, and the image-id slice `&id[7..15]` in `handle_buildkit_event`
on an id of length 9 — contradicting the claim that processing never panics
(`none` models the panic). -/
theorem c6_short_fragment_panics :
    parse_and_display_build_output emptyBuildStats "--> abc" = none ∧
    handle_aux_default_msg "sha256:ab" = none := by
  constructor
  · decide
  · decide

/-- C7: `build_log` lines starting with `IMAGE_ID:` are removed by the
`regular_logs` filter, so the `Final image` rendering branch is dead — even
for the exact lines `handle_buildkit_event` itself pushes — while the
rendering loop would have produced a `Final image` line for them. -/
theorem c7_image_id_lines_dropped :
    regular_logs ["ERROR: boom", "IMAGE_ID: sha256:abcdef12", "STEP 2/3: RUN make"] =
      ["ERROR: boom", "STEP 2/3: RUN make"] ∧
    regular_logs ((handle_aux_default_log emptyBuildStats "sha256:abcdef1234").build_log) = [] ∧
    render_regular_line 1 "IMAGE_ID: sha256:abcdef12" =
      some (some "ğŸ¯   1: Final image sha256:abcdef12") := by
  refine ⟨by decide, by decide, by decide⟩

theorem cmpChars_swap (a : List Char) : ∀ b, cmpChars b a = (cmpChars a b).swap := by
  induction a with
  | nil => intro b; cases b <;> simp [cmpChars, Ordering.swap]
  | cons x as ih =>
    intro b
    cases b with
    | nil => simp [cmpChars, Ordering.swap]
    | cons y bs =>
      simp only [cmpChars]
      rcases lt_trichotomy x y with h | h | h
      · simp [h, asymm h, Ordering.swap]
      · subst h
        simp [lt_irrefl, ih]
      · simp [h, asymm h, Ordering.swap]

theorem cmpChars_eq_iff (a : List Char) : ∀ b, cmpChars a b = Ordering.eq ↔ a = b := by
  induction a with
  | nil => intro b; cases b <;> simp [cmpChars]
  | cons x as ih =>
    intro b
    cases b with
    | nil => simp [cmpChars]
    | cons y bs =>
      simp only [cmpChars]
      rcases lt_trichotomy x y with h | h | h
      · simp [h, ne_of_lt h]
      · subst h
        simp [lt_irrefl, ih]
      · simp [h, asymm h, (ne_of_gt h)]

theorem cmpChars_lt_trans : ∀ {a b c : List Char},
    cmpChars a b = Ordering.lt → cmpChars b c = Ordering.lt → cmpChars a c = Ordering.lt := by
  intro a
  induction a with
  | nil =>
    intro b c h1 h2
    cases b with
    | nil => simpa [cmpChars] using h2
    | cons y bs =>
      cases c with
      | nil => simp [cmpChars] at h2
      | cons z cs => simp [cmpChars]
  | cons x as ih =>
    intro b c h1 h2
    cases b with
    | nil => simp [cmpChars] at h1
    | cons y bs =>
      cases c with
      | nil => simp [cmpChars] at h2
      | cons z cs =>
        simp only [cmpChars] at h1 h2 ⊢
        by_cases hxy : x < y
        · by_cases hyz : y < z
          · simp [lt_trans hxy hyz]
          · by_cases hzy : z < y
            · simp [hyz, hzy] at h2
            · have hyz' : y = z := le_antisymm (not_lt.mp hzy) (not_lt.mp hyz)
              subst hyz'
              simp [hxy]
        · by_cases hyx : y < x
          · simp [hxy, hyx] at h1
          · have hxy' : x = y := le_antisymm (not_lt.mp hyx) (not_lt.mp hxy)
            subst hxy'
            simp only [hxy, hyx, if_neg, lt_irrefl] at h1
            by_cases hxz : x < z
            · simp [hxz]
            · by_cases hzx : z < x
              · simp [hxz, hzx] at h2
              · have hxz' : x = z := le_antisymm (not_lt.mp hzx) (not_lt.mp hxz)
                subst hxz'
                simp only [lt_irrefl, if_false] at h2 ⊢
                exact ih h1 h2

theorem cmpChars_le_trans {a b c : List Char} (h1 : cmpChars a b ≠ Ordering.gt)
    (h2 : cmpChars b c ≠ Ordering.gt) : cmpChars a c ≠ Ordering.gt := by
  rcases ho1 : cmpChars a b with _ | _ | _
  · rcases ho2 : cmpChars b c with _ | _ | _
    · rw [cmpChars_lt_trans ho1 ho2]
      simp
    · have hb : b = c := (cmpChars_eq_iff _ _).mp ho2
      subst hb
      rw [ho1]
      simp
    · exact absurd ho2 h2
  · have hb : a = b := (cmpChars_eq_iff _ _).mp ho1
    subst hb
    exact h2
  · exact absurd ho1 h1

theorem cmpChars_total (a b : List Char) :
    cmpChars a b ≠ Ordering.gt ∨ cmpChars b a ≠ Ordering.gt := by
  rcases h : cmpChars a b with _ | _ | _
  · left; simp
  · left; simp
  · right
    rw [cmpChars_swap, h]
    simp [Ordering.swap]

theorem event_le_total : IsTotal BuildEvent event_le := by
  refine ⟨fun a b => ?_⟩
  unfold event_le event_cmp
  cases ha : is_internal a <;> cases hb : is_internal b <;> simp only
  · cases sa : a.step_number <;> cases sb : b.step_number <;> simp only
    · exact cmpChars_total _ _
    · right; simp
    · left; simp
    · rename_i x y
      by_cases hxy : x < y
      · left; simp [hxy]
      · by_cases hyx : y < x
        · right; simp [hyx]
        · have hxy' : x = y := by omega
          subst hxy'
          left; simp
  · right; simp
  · left; simp
  · exact cmpChars_total _ _

theorem event_le_trans : IsTrans BuildEvent event_le := by
  refine ⟨fun a b c h1 h2 => ?_⟩
  unfold event_le event_cmp at h1 h2 ⊢
  cases ha : is_internal a <;> cases hb : is_internal b <;> cases hc : is_internal c <;>
    simp only [ha, hb, hc] at h1 h2 ⊢
  · cases sa : a.step_number <;> cases sb : b.step_number <;> cases sc : c.step_number <;>
      simp only [sa, sb, sc] at h1 h2 ⊢
    · exact cmpChars_le_trans h1 h2
    · exact absurd rfl h2
    · exact absurd rfl h1
    · exact absurd rfl h1
    · simp
    · exact absurd rfl h2
    · simp
    · rename_i x y z
      have hxy : x ≤ y := by
        by_contra hgt
        simp [show ¬ x < y by omega, show ¬ x = y by omega] at h1
      have hyz : y ≤ z := by
        by_contra hgt
        simp [show ¬ y < z by omega, show ¬ y = z by omega] at h2
      rcases (show x < z ∨ x = z ∨ (x ≤ z ∧ False) ∨ x ≤ z from by omega) with h | h | h | h
      · simp [h]
      · simp [h]
      · exact absurd h.2 not_false
      · rcases lt_or_eq_of_le h with h' | h'
        · simp [h']
        · simp [h']
  · exact absurd rfl h2
  · exact absurd rfl h1
  · exact absurd rfl h1
  · simp
  · exact absurd rfl h2
  · simp
  · exact cmpChars_le_trans h1 h2

theorem event_le_imp_diag (a b : BuildEvent) (h : event_le a b) : diag_pair_ok a b := by
  unfold event_le event_cmp at h
  cases ha : is_internal a with
  | true =>
    cases hb : is_internal b with
    | true =>
      refine Or.inr (Or.inl ⟨ha, hb, ?_⟩)
      rw [ha, hb] at h
      exact h
    | false => exact Or.inl ⟨ha, hb⟩
  | false =>
    cases hb : is_internal b with
    | true =>
      exfalso
      rw [ha, hb] at h
      exact h rfl
    | false =>
      refine Or.inr (Or.inr ⟨ha, hb, ?_⟩)
      unfold step_pair_ok
      rw [ha, hb] at h
      cases sa : a.step_number with
      | none =>
        cases sb : b.step_number with
        | none =>
          rw [sa, sb] at h
          exact h
        | some y =>
          exfalso
          rw [sa, sb] at h
          exact h rfl
      | some x =>
        cases sb : b.step_number with
        | none => trivial
        | some y =>
          rw [sa, sb] at h
          show x ≤ y
          by_contra hgt
          simp [show ¬ x < y by omega, show ¬ x = y by omega] at h

/-- C4 (amended): the per-event transcript section is the shown events,
ordered with internal entries first (sorted by name), then the rest by step
number ascending with absent step numbers last; name order breaks ties only
when both step numbers are absent, and entries sharing a step number keep
their pre-sort relative order (Rust's `sort_by` is stable; the input order is
the hash-map iteration order). -/
theorem c4_transcript_ordering (events : List BuildEvent) :
    (ordered_events events).Pairwise diag_pair_ok ∧
    (ordered_events events).Perm (events.filter event_shown) := by
  constructor
  · have hs : List.Pairwise event_le
        (List.insertionSort event_le (events.filter event_shown)) := by
      haveI := event_le_total
      haveI := event_le_trans
      exact List.sorted_insertionSort event_le (events.filter event_shown)
    exact hs.imp (fun h => event_le_imp_diag _ _ h)
  · exact List.perm_insertionSort event_le (events.filter event_shown)

/-- Counterexample to C4 as stated: two shown non-internal events with the
same step number stay in input order — the name tie-break the claim asserts
does not happen for equal step numbers. -/
theorem c4_same_step_not_name_sorted :
    ordered_events
        [⟨"b", some 1, true, false, false, []⟩, ⟨"a", some 1, true, false, false, []⟩] =
      [⟨"b", some 1, true, false, false, []⟩, ⟨"a", some 1, true, false, false, []⟩] ∧
    ¬ c4_claimed_order
        (ordered_events
          [⟨"b", some 1, true, false, false, []⟩, ⟨"a", some 1, true, false, false, []⟩]) := by
  have h1 : ordered_events
      [⟨"b", some 1, true, false, false, []⟩, ⟨"a", some 1, true, false, false, []⟩] =
      [⟨"b", some 1, true, false, false, []⟩, ⟨"a", some 1, true, false, false, []⟩] := by
    decide
  refine ⟨h1, ?_⟩
  intro h
  rw [h1] at h
  unfold c4_claimed_order at h
  rw [List.pairwise_cons] at h
  have h2 := h.1 _ (List.mem_cons_self _ _)
  exact absurd h2 (by decide)

theorem update_build_event_view (s : BuildStats) (v : Vertex) (d : String) :
    evView (update_build_event s v) d =
      if v.digest = d then
        match evView s d with
        | none => some (v.completed, if v.completed then v.cached else false)
        | some (true, b) => some (true, b)
        | some (false, b) => some (v.completed, if v.completed then v.cached else b)
      else evView s d := by
  unfold evView update_build_event
  dsimp only
  by_cases hd : v.digest = d
  · subst hd
    rw [if_pos rfl, alookup_mapInsert_self]
    cases hl : alookup v.digest s.build_events with
    | none =>
      cases hst : v.started <;> cases hco : v.completed <;> simp [hst, hco]
    | some e =>
      cases hec : e.completed <;> cases hst : v.started <;> cases hes : e.started <;>
        cases hco : v.completed <;> simp [hec, hst, hes, hco]
  · rw [if_neg hd, alookup_mapInsert_ne _ _ _ _ (fun hh => hd hh.symm)]

theorem evView_apply_vertex_log (s : BuildStats) (l : LogItem) (d : String) :
    evView (apply_vertex_log s l) d = evView s d := by
  unfold evView apply_vertex_log
  dsimp only
  split
  · split
    · rename_i e he
      split
      · rfl
      · by_cases hd : d = l.vertex
        · subst hd
          rw [alookup_mapInsert_self, he]
          rfl
        · rw [alookup_mapInsert_ne _ _ _ _ hd]
    · rfl
  · rfl

theorem evView_fold_logs (ls : List LogItem) (s : BuildStats) (d : String) :
    evView (ls.foldl apply_vertex_log s) d = evView s d := by
  induction ls generalizing s with
  | nil => rfl
  | cons l rest ih => rw [List.foldl_cons, ih, evView_apply_vertex_log]

theorem build_events_fold_direct (vs : List Vertex) (s : BuildStats) :
    (vs.foldl process_vertex_direct s).build_events = s.build_events := by
  induction vs generalizing s with
  | nil => rfl
  | cons v rest ih => rw [List.foldl_cons, ih, process_vertex_direct_build_events]

theorem first_completed_append (vs : List Vertex) (v : Vertex) (d : String) :
    first_completed_cached (vs ++ [v]) d =
      (first_completed_cached vs d).or
        (if (v.digest == d && v.completed) = true then some v.cached else none) := by
  unfold first_completed_cached
  rw [List.find?_append]
  cases hf : vs.find? (fun w => w.digest == d && w.completed) with
  | some w => simp [Option.or]
  | none =>
    by_cases hv : (v.digest == d && v.completed) = true
    · simp [List.find?, hv, Option.or]
    · simp [List.find?, hv, Option.or]

theorem c5Inv_congr (seen : List Vertex) (d : String) (s s' : BuildStats)
    (hview : evView s' d = evView s d) (h : c5Inv seen d s) : c5Inv seen d s' := by
  unfold c5Inv at h ⊢
  cases hf : first_completed_cached seen d with
  | some b =>
    rw [hf] at h
    rw [hview]
    exact h
  | none =>
    rw [hf] at h
    intro p hp
    rw [hview] at hp
    exact h p hp

theorem option_or_none {α : Type} (o : Option α) : o.or none = o := by
  cases o <;> rfl

theorem c5Inv_step (seen : List Vertex) (s : BuildStats) (v : Vertex) (d : String)
    (h : c5Inv seen d s) : c5Inv (seen ++ [v]) d (update_build_event s v) := by
  unfold c5Inv at h ⊢
  rw [first_completed_append, update_build_event_view]
  by_cases hd : v.digest = d
  · cases hvc : v.completed with
    | true =>
      cases hf : first_completed_cached seen d with
      | some b =>
        rw [hf] at h
        have h' : evView s d = some (true, b) := h
        simp [hd, hvc, Option.or, h']
      | none =>
        rw [hf] at h
        have h' : ∀ p : Bool × Bool, evView s d = some p → p.1 = false := h
        simp only [hd, hvc, beq_self_eq_true, Bool.true_and, if_true, Option.or]
        cases hv : evView s d with
        | none => simp [hv]
        | some p =>
          obtain ⟨pc, pb⟩ := p
          have hpc : pc = false := h' _ hv
          subst hpc
          simp [hv]
    | false =>
      cases hf : first_completed_cached seen d with
      | some b =>
        rw [hf] at h
        have h' : evView s d = some (true, b) := h
        simp [hd, hvc, Option.or, h']
      | none =>
        rw [hf] at h
        have h' : ∀ p : Bool × Bool, evView s d = some p → p.1 = false := h
        simp only [hd, hvc, Bool.and_false, Bool.false_eq_true, if_false, Option.or]
        intro p hp
        obtain ⟨pc, pb⟩ := p
        cases hv : evView s d with
        | none =>
          rw [hv] at hp
          simp at hp
          exact hp.1
        | some q =>
          obtain ⟨qc, qb⟩ := q
          have hqc : qc = false := h' _ hv
          subst hqc
          rw [hv] at hp
          simp at hp
          exact hp.1
  · rw [if_neg hd]
    have hbeq : (v.digest == d) = false := by simp [hd]
    simp only [hbeq, Bool.false_and, Bool.false_eq_true, if_false, option_or_none]
    exact h

theorem c5Inv_fold_updates (vs : List Vertex) (seen : List Vertex) (s : BuildStats)
    (d : String) (h : c5Inv seen d s) :
    c5Inv (seen ++ vs) d (vs.foldl update_build_event s) := by
  induction vs generalizing seen s with
  | nil => simpa using h
  | cons v rest ih =>
    have hstep := c5Inv_step seen s v d h
    have := ih (seen ++ [v]) (update_build_event s v) hstep
    rw [List.foldl_cons]
    simpa [List.append_assoc] using this

theorem c5Inv_handle_status (seen : List Vertex) (s : BuildStats) (r : StatusResp)
    (d : String) (h : c5Inv seen d s) :
    c5Inv (seen ++ r.vertexes) d (handle_status_response s r) := by
  unfold handle_status_response
  dsimp only
  have h1 := c5Inv_fold_updates r.vertexes seen s d h
  have h2 := c5Inv_congr _ _ _ _
    (evView_fold_logs r.logs (r.vertexes.foldl update_build_event s) d) h1
  refine c5Inv_congr _ _ _ _ ?_ h2
  unfold evView
  rw [build_events_fold_direct]

theorem c5Inv_fold_resps (resps : List StatusResp) (seen : List Vertex) (s : BuildStats)
    (d : String) (h : c5Inv seen d s) :
    c5Inv (seen ++ resps.flatMap (fun r => r.vertexes)) d
      (resps.foldl handle_status_response s) := by
  induction resps generalizing seen s with
  | nil => simpa using h
  | cons r rest ih =>
    have hstep := c5Inv_handle_status seen s r d h
    have := ih (seen ++ r.vertexes) (handle_status_response s r) hstep
    rw [List.foldl_cons, List.flatMap_cons]
    simpa [List.append_assoc] using this

/-- C5 (amended): the tracked event's `cached` field equals the cached value
carried by the *first* report that marked that digest completed (not the most
recent one), for any sequence of status responses from the empty state. -/
theorem c5_first_completion_fixes_cached (resps : List StatusResp) (d : String) (b : Bool)
    (h : first_completed_cached (resps.flatMap (fun r => r.vertexes)) d = some b) :
    ∃ e, alookup d (resps.foldl handle_status_response emptyBuildStats).build_events = some e ∧
      e.completed = true ∧ e.cached = b := by
  have h0 : c5Inv [] d emptyBuildStats := by
    unfold c5Inv
    cases hf : first_completed_cached [] d with
    | some w => simp [first_completed_cached] at hf
    | none =>
      intro p hp
      simp [evView, emptyBuildStats, alookup] at hp
  have hfin := c5Inv_fold_resps resps [] emptyBuildStats d h0
  rw [List.nil_append] at hfin
  unfold c5Inv at hfin
  rw [h] at hfin
  unfold evView at hfin
  cases he : alookup d (resps.foldl handle_status_response emptyBuildStats).build_events with
  | none =>
    rw [he] at hfin
    exact absurd hfin (by simp)
  | some e =>
    rw [he] at hfin
    simp only [Option.map_some] at hfin
    refine ⟨e, rfl, ?_, ?_⟩
    · exact congrArg Prod.fst (Option.some.inj hfin)
    · exact congrArg Prod.snd (Option.some.inj hfin)

/-- Witness for C5 (amended) on a concrete two-report sequence. -/
theorem c5_first_completion_fixes_cached_witness :
    ∃ e,
      alookup "d" ((([⟨[⟨"d", "step", true, true, false⟩], []⟩,
          ⟨[⟨"d", "step", true, true, true⟩], []⟩] : List StatusResp).foldl
            handle_status_response emptyBuildStats).build_events) = some e ∧
        e.completed = true ∧ e.cached = false :=
  c5_first_completion_fixes_cached _ "d" false (by decide)

/-- Counterexample to C5 as stated: after completion reports with
`cached = false` then `cached = true` for one digest, the tracked event's
`cached` field is `false` while the most recent completion report carried
`true`. -/
theorem c5_cached_not_last_report :
    (alookup "d" ((([⟨[⟨"d", "step", true, true, false⟩], []⟩,
        ⟨[⟨"d", "step", true, true, true⟩], []⟩] : List StatusResp).foldl
          handle_status_response emptyBuildStats).build_events)).map (fun e => e.cached) =
      some false ∧
    last_completed_cached
      [⟨"d", "step", true, true, false⟩, ⟨"d", "step", true, true, true⟩] "d" = some true := by
  constructor
  · decide
  · decide
